import Mathlib

/-!
# Verification of the gadb ADB client library

Shallow embedding of the wire-protocol core of the `gadb` Go library:
the framed host transport (`transport` in the unnamed transport source),
the SYNC sub-protocol (`sync_transport.go`), device enumeration
(`file.go`'s `Client.List`), the remote file metadata (`file.go`'s
`fileInfo`), and the shell-command paths of `device.go` / `error.go`.

Bytes are modelled as `Nat` (one per Go byte), byte strings as `List Nat`,
and Go strings used for parsing as `List Char`.  Socket I/O is modelled
explicitly: inbound data is a byte list consumed from the front, outbound
data is the byte list produced, and the partial-write behaviour of
`net.Conn.Write` is modelled by an acceptance schedule.
-/

namespace Gadb

/-! ## Byte-level helpers shared by both transports -/

/-- `_readN` (transport source): gather exactly `k` bytes from the inbound
stream or fail because the connection ended early.  Returns the bytes read
and the remaining stream. -/
def readN (k : Nat) (input : List Nat) : Option (List Nat × List Nat) :=
  if input.length < k then none else some (input.take k, input.drop k)

/-- 4-byte little-endian encoding as produced by
`binary.Write(msg, binary.LittleEndian, v)` for a `uint32`/`int32` value.
A Go `int32(n)` conversion wraps modulo `2^32` and its byte image equals
that of `n % 2^32`, which is what these digit extractions compute. -/
def le32 (n : Nat) : List Nat :=
  [n % 256, n / 256 % 256, n / 65536 % 256, n / 16777216 % 256]

/-- Little-endian decoding of a byte list, as `binary.Read` into a `uint32`. -/
def decodeLE (l : List Nat) : Nat :=
  l.foldr (fun b acc => b + 256 * acc) 0

/-- `syncTransport.ReadUint32`: read 4 bytes and decode them little-endian. -/
def readUint32 (input : List Nat) : Option (Nat × List Nat) :=
  match readN 4 input with
  | none => none
  | some (b, rest) => some (decodeLE b, rest)

theorem readN_exact (k : Nat) (xs rest : List Nat) (h : xs.length = k) :
    readN k (xs ++ rest) = some (xs, rest) := by
  subst h
  simp [readN, List.take_left, List.drop_left]

theorem decodeLE_le32 (n : Nat) (h : n < 4294967296) : decodeLE (le32 n) = n := by
  simp only [le32, decodeLE, List.foldr]
  omega

theorem le32_length (n : Nat) : (le32 n).length = 4 := rfl

theorem readUint32_le32 (n : Nat) (rest : List Nat) (h : n < 4294967296) :
    readUint32 (le32 n ++ rest) = some (n, rest) := by
  simp [readUint32, readN_exact 4 (le32 n) rest (le32_length n), decodeLE_le32 n h]

/-! ## Hexadecimal formatting (Go `fmt.Sprintf("%04x", n)`) -/

/-- The byte of the lowercase hexadecimal digit for `d < 16`, as Go `%x`
renders it. -/
def hexChar (d : Nat) : Nat := if d < 10 then 48 + d else 87 + d

/-- Digit accumulation loop for the minimal hexadecimal rendering; the fuel
argument only serves termination and `n + 1` of it always suffices. -/
def hexDigitsAux : Nat → Nat → List Nat → List Nat
  | 0, _, acc => acc
  | fuel + 1, n, acc =>
    if n < 16 then hexChar n :: acc
    else hexDigitsAux fuel (n / 16) (hexChar (n % 16) :: acc)

/-- The minimal lowercase hexadecimal rendering of `n` (Go `%x`). -/
def hexDigits (n : Nat) : List Nat := hexDigitsAux (n + 1) n []

theorem hexDigitsAux_fuel (f1 : Nat) :
    ∀ (f2 n : Nat) (acc : List Nat), n < f1 → n < f2 →
      hexDigitsAux f1 n acc = hexDigitsAux f2 n acc := by
  induction f1 with
  | zero => intro f2 n acc h1 _; omega
  | succ f ih =>
    intro f2 n acc h1 h2
    cases f2 with
    | zero => omega
    | succ f2 =>
      by_cases hn : n < 16
      · simp [hexDigitsAux, hn]
      · have hd : n / 16 < f := by omega
        have hd2 : n / 16 < f2 := by omega
        simp only [hexDigitsAux, if_neg hn]
        exact ih f2 (n / 16) _ hd hd2

theorem hexDigitsAux_acc (fuel : Nat) :
    ∀ (n : Nat) (acc : List Nat),
      hexDigitsAux fuel n acc = hexDigitsAux fuel n [] ++ acc := by
  induction fuel with
  | zero => intro n acc; simp [hexDigitsAux]
  | succ f ih =>
    intro n acc
    by_cases hn : n < 16
    · simp [hexDigitsAux, hn]
    · simp only [hexDigitsAux, if_neg hn]
      rw [ih (n / 16) (hexChar (n % 16) :: acc), ih (n / 16) [hexChar (n % 16)]]
      simp

/-- Left zero-padding to width 4, Go's `%04x` flag. -/
def pad4 (l : List Nat) : List Nat := List.replicate (4 - l.length) 48 ++ l

/-- Go `fmt.Sprintf("%04x", n)` as a byte list. -/
def fmt04x (n : Nat) : List Nat := pad4 (hexDigits n)

/-- Modelled from the spec: "the four lowercase hexadecimal digits of
`|s|`", most significant digit first, always width 4. -/
def hex4 (n : Nat) : List Nat :=
  [hexChar (n / 4096 % 16), hexChar (n / 256 % 16),
   hexChar (n / 16 % 16), hexChar (n % 16)]

theorem hexDigits_small (n : Nat) (h : n < 16) : hexDigits n = [hexChar n] := by
  simp [hexDigits, hexDigitsAux, h]

theorem hexDigits_step (n : Nat) (h : 16 ≤ n) :
    hexDigits n = hexDigits (n / 16) ++ [hexChar (n % 16)] := by
  unfold hexDigits
  have h1 : hexDigitsAux (n + 1) n [] = hexDigitsAux n (n / 16) [hexChar (n % 16)] := by
    simp [hexDigitsAux, Nat.not_lt_of_le h]
  rw [h1, hexDigitsAux_acc n (n / 16) [hexChar (n % 16)],
    hexDigitsAux_fuel n (n / 16 + 1) (n / 16) [] (by omega) (by omega)]

theorem fmt04x_eq_hex4 (n : Nat) (h : n ≤ 0xFFFF) : fmt04x n = hex4 n := by
  have hc0 : hexChar 0 = 48 := by decide
  rcases Nat.lt_or_ge n 16 with h1 | h1
  · have e1 : n / 4096 = 0 := Nat.div_eq_of_lt (by omega)
    have e2 : n / 256 = 0 := Nat.div_eq_of_lt (by omega)
    have e3 : n / 16 = 0 := Nat.div_eq_of_lt h1
    have e4 : n % 16 = n := Nat.mod_eq_of_lt h1
    simp [fmt04x, pad4, hexDigits_small n h1, hex4, e1, e2, e3, e4, hc0,
      List.replicate]
  · rcases Nat.lt_or_ge n 256 with h2 | h2
    · have d1 : n / 16 < 16 := by omega
      have e1 : n / 4096 = 0 := Nat.div_eq_of_lt (by omega)
      have e2 : n / 256 = 0 := Nat.div_eq_of_lt (by omega)
      have e3 : n / 16 % 16 = n / 16 := Nat.mod_eq_of_lt d1
      rw [fmt04x, hexDigits_step n h1, hexDigits_small _ d1]
      simp [pad4, hex4, e1, e2, e3, hc0, List.replicate]
    · rcases Nat.lt_or_ge n 4096 with h3 | h3
      · have d2 : n / 16 ≥ 16 := by omega
        have d1 : n / 16 / 16 < 16 := by omega
        rw [fmt04x, hexDigits_step n h1, hexDigits_step _ d2, hexDigits_small _ d1]
        have g1 : n / 16 / 16 = n / 256 % 16 := by omega
        have e1 : n / 4096 % 16 = 0 := by omega
        rw [g1]
        simp [pad4, hex4, e1, hc0, List.replicate]
      · have d3 : n / 16 ≥ 16 := by omega
        have d2 : n / 16 / 16 ≥ 16 := by omega
        have d1 : n / 16 / 16 / 16 < 16 := by omega
        rw [fmt04x, hexDigits_step n h1, hexDigits_step _ d3, hexDigits_step _ d2,
          hexDigits_small _ d1]
        have g1 : n / 16 / 16 / 16 = n / 4096 % 16 := by omega
        have g2 : n / 16 / 16 % 16 = n / 256 % 16 := by omega
        rw [g1, g2]
        simp [pad4, hex4, List.replicate]

/-! ## `_send` and the framed transport `Send` -/

/-- `_send` (transport source): loop calling `writer.Write(msg[totalSent:])`
until every byte is written.  The writer is modelled by its acceptance
schedule `accepts`: the k-th `Write` call accepts `min (accepts k) offered`
bytes of the offered slice; a zero acceptance is the `ErrConnBroken` case
and an exhausted schedule stands for a `Write` error.  Returns the bytes
that reached the socket and whether the send completed without error. -/
def sendBytes (msg : List Nat) : List Nat → Nat → List Nat × Bool
  | [], t => if msg.length ≤ t then ([], true) else ([], false)
  | a :: rest, t =>
    if msg.length ≤ t then ([], true)
    else
      let sent := min a (msg.length - t)
      if sent = 0 then ([], false)
      else
        let r := sendBytes msg rest (t + sent)
        ((msg.drop t).take sent ++ r.1, r.2)

theorem sendBytes_complete (msg : List Nat) :
    ∀ (accepts : List Nat) (t : Nat),
      (sendBytes msg accepts t).2 = true → (sendBytes msg accepts t).1 = msg.drop t := by
  intro accepts
  induction accepts with
  | nil =>
    intro t hok
    by_cases hle : msg.length ≤ t
    · simp [sendBytes, hle, List.drop_eq_nil_iff.mpr hle]
    · simp [sendBytes, hle] at hok
  | cons a rest ih =>
    intro t hok
    by_cases hle : msg.length ≤ t
    · simp [sendBytes, hle, List.drop_eq_nil_iff.mpr hle]
    · by_cases hz : min a (msg.length - t) = 0
      · simp [sendBytes, hle, hz] at hok
      · have hok2 : (sendBytes msg rest (t + min a (msg.length - t))).2 = true := by
          simpa [sendBytes, hle, hz] using hok
        have hrec := ih (t + min a (msg.length - t)) hok2
        have hdd : msg.drop (t + min a (msg.length - t))
            = (msg.drop t).drop (min a (msg.length - t)) := by
          rw [List.drop_drop]
        simp only [sendBytes, if_neg hle, if_neg hz]
        simp only [hrec, hdd]
        simp [List.take_append_drop]

/-- `transport.Send`: frame the ASCII command with `%04x` of its byte length
and push the frame through `_send`. -/
def transportSend (command : List Nat) (accepts : List Nat) : List Nat × Bool :=
  sendBytes (fmt04x command.length ++ command) accepts 0

/-! ## Claim C1 -/

/-- C1: for every ASCII command `s` with `|s| ≤ 0xFFFF`, a completed
`transport.Send` writes to the socket exactly the four lowercase
hexadecimal digits of `|s|` followed by the raw bytes of `s`. -/
theorem transport_send_exact_frame (s accepts : List Nat)
    (hlen : s.length ≤ 0xFFFF)
    (hok : (transportSend s accepts).2 = true) :
    (transportSend s accepts).1 = hex4 s.length ++ s := by
  have h := sendBytes_complete (fmt04x s.length ++ s) accepts 0 hok
  rw [transportSend, h, List.drop_zero, fmt04x_eq_hex4 s.length hlen]

/-- Witness for C1 at the command "abc" and a writer accepting 16 bytes per
call. -/
theorem transport_send_exact_frame_witness :
    (transportSend [97, 98, 99] [16]).1
      = hex4 (List.length [97, 98, 99]) ++ [97, 98, 99] :=
  transport_send_exact_frame [97, 98, 99] [16] (by decide) (by decide)

/-! ## SYNC transport (`sync_transport.go`) -/

/-- `syncMaxChunkSize = 64 * 1024`. -/
def syncMaxChunkSize : Nat := 64 * 1024

/-- The four ASCII bytes of the SYNC tag "DATA". -/
def dataTag : List Nat := [68, 65, 84, 65]

/-- The four ASCII bytes of the SYNC tag "DONE". -/
def doneTag : List Nat := [68, 79, 78, 69]

/-- The four ASCII bytes of the SYNC tag "FAIL". -/
def failTag : List Nat := [70, 65, 73, 76]

/-- The four ASCII bytes of the SYNC tag "DENT". -/
def dentTag : List Nat := [68, 69, 78, 84]

/-- The four ASCII bytes of the status "OKAY". -/
def okayTag : List Nat := [79, 75, 65, 89]

/-- `syncTransport.Send`: reject a tag whose length is not 4 before anything
is written; otherwise build the frame `tag ++ int32-LE(len data) ++ data`
in a buffer and push it through `_send`.  Result as in `sendBytes`: the
bytes that reached the socket and the success flag. -/
def syncSend (command data accepts : List Nat) : List Nat × Bool :=
  if command.length ≠ 4 then ([], false)
  else sendBytes (command ++ le32 data.length ++ data) accepts 0

/-! ## Claim C10 -/

/-- C10: a `syncTransport.Send` with a tag of length other than 4 errors out
with nothing written; with a 4-byte tag, a completed send puts exactly
`tag ++ little-endian-32(len data) ++ data` on the socket. -/
theorem sync_send_frame (command data accepts : List Nat) :
    (command.length ≠ 4 → syncSend command data accepts = ([], false)) ∧
    (command.length = 4 → (syncSend command data accepts).2 = true →
      (syncSend command data accepts).1 = command ++ le32 data.length ++ data) := by
  constructor
  · intro h
    simp [syncSend, h]
  · intro h4 hok
    have hne : ¬ command.length ≠ 4 := by omega
    have hok2 : (sendBytes (command ++ le32 data.length ++ data) accepts 0).2 = true := by
      simpa [syncSend, hne] using hok
    have h := sendBytes_complete (command ++ le32 data.length ++ data) accepts 0 hok2
    rw [List.drop_zero] at h
    simp only [syncSend, hne, if_false, ite_false, if_neg hne]
    rw [h]

/-- Witness for C10: a 3-byte tag is rejected with nothing written, and the
frame of a `LIST`-tagged send with a 2-byte payload is written exactly. -/
theorem sync_send_frame_witness :
    syncSend [1, 2, 3] [9] [5] = ([], false) ∧
    (syncSend [76, 73, 83, 84] [1, 2] [100]).1
      = [76, 73, 83, 84] ++ le32 (List.length [1, 2]) ++ [1, 2] :=
  ⟨(sync_send_frame [1, 2, 3] [9] [5]).1 (by decide),
   (sync_send_frame [76, 73, 83, 84] [1, 2] [100]).2 (by decide) (by decide)⟩

/-! ## `SendStream` (push chunking) -/

/-- The error value returned by one `reader.Read` call: `nil`, `io.EOF`, or
any other error. -/
inductive ReadErr
  | noErr
  | eof
  | other
deriving DecidableEq

/-- `syncTransport.SendStream`: repeatedly `Read` into a fresh 65536-byte
buffer.  `io.EOF` ends the stream (before the returned count is looked at),
any other error aborts, and otherwise `sendChunk(b[:n])` emits one `DATA`
frame.  The reader is modelled by the sequence of its `Read` results: the
bytes it places into the buffer (hence at most `syncMaxChunkSize` of them
are taken) and the error value it returns.  An exhausted result list stands
for a reader that never answers again.  Returns the payloads of the emitted
`DATA` frames and whether the stream completed. -/
def sendStream : List (List Nat × ReadErr) → List (List Nat) × Bool
  | [] => ([], false)
  | (b, e) :: rest =>
    match e with
    | .eof => ([], true)
    | .other => ([], false)
    | .noErr =>
      let c := b.take syncMaxChunkSize
      let r := sendStream rest
      (c :: r.1, r.2)

/-! ## Claim C3 -/

/-- C3 counterexample: a reader whose `Read` returns `(0, nil)` — which the
`io.Reader` contract permits — makes `SendStream` emit a `DATA` frame with
an empty payload, violating the claimed lower bound of 1. -/
theorem sendstream_zero_chunk_cex :
    ¬ (∀ c ∈ (sendStream [([], ReadErr.noErr), ([], ReadErr.eof)]).1,
        1 ≤ c.length ∧ c.length ≤ 65536) := by
  decide

/-- C3 amended: every `DATA` frame emitted by `SendStream` has payload
length at most 65536; if the reader never returns a zero-byte read with a
nil error, every emitted payload length is in `[1, 65536]`. -/
theorem sendstream_chunk_bounds (results : List (List Nat × ReadErr)) :
    (∀ c ∈ (sendStream results).1, c.length ≤ 65536) ∧
    ((∀ r ∈ results, r.2 = ReadErr.noErr → r.1 ≠ []) →
      ∀ c ∈ (sendStream results).1, 1 ≤ c.length ∧ c.length ≤ 65536) := by
  induction results with
  | nil => simp [sendStream]
  | cons hd rest ih =>
    obtain ⟨b, e⟩ := hd
    cases e with
    | eof => simp [sendStream]
    | other => simp [sendStream]
    | noErr =>
      constructor
      · intro c hc
        simp only [sendStream, List.mem_cons] at hc
        rcases hc with hc | hc
        · subst hc
          simp [syncMaxChunkSize]
        · exact ih.1 c hc
      · intro hnz c hc
        have hb : b ≠ [] := by
          have := hnz (b, ReadErr.noErr) (by simp)
          exact this rfl
        simp only [sendStream, List.mem_cons] at hc
        rcases hc with hc | hc
        · subst hc
          refine ⟨?_, by simp [syncMaxChunkSize]⟩
          have : b.take syncMaxChunkSize ≠ [] := by
            simp [List.take_eq_nil_iff, syncMaxChunkSize, hb]
          have hlen := List.length_pos.mpr this
          omega
        · exact (ih.2 (fun r hr => hnz r (by simp [hr]))) c hc

/-- Witness for C3 at a reader delivering one 1-byte chunk then EOF. -/
theorem sendstream_chunk_bounds_witness :
    ∀ c ∈ (sendStream [([5], ReadErr.noErr), ([], ReadErr.eof)]).1,
      1 ≤ c.length ∧ c.length ≤ 65536 :=
  (sendstream_chunk_bounds [([5], ReadErr.noErr), ([], ReadErr.eof)]).2 (by decide)

/-! ## `WriteStream` (pull side) and the push/pull round trip -/

/-- `syncTransport.readChunk` inside the `WriteStream` loop, with the
destination writer modelled as the accumulator `acc` (it accepts every
byte, as the claim's destination does).  One iteration reads a 4-byte tag
and a little-endian `uint32`; `FAIL` reads the message and errors, `DONE`
is `io.EOF` so `WriteStream` returns the destination contents, `DATA`
copies the payload, and any other tag is the `unknown error` case.  The
fuel only bounds the number of iterations; each iteration consumes at
least 8 bytes, so `input.length + 1` of it always suffices. -/
def writeStreamFuel : Nat → List Nat → List Nat → Option (List Nat)
  | 0, _, _ => none
  | fuel + 1, input, acc =>
    match readN 4 input with
    | none => none
    | some (status, r1) =>
      match readUint32 r1 with
      | none => none
      | some (n, r2) =>
        if status = failTag then
          match readN n r2 with
          | none => none
          | some _ => none
        else if status = doneTag then some acc
        else if status = dataTag then
          match readN n r2 with
          | none => none
          | some (chunk, r3) => writeStreamFuel fuel r3 (acc ++ chunk)
        else none

/-- `syncTransport.WriteStream` over a finite inbound stream. -/
def writeStream (input : List Nat) : Option (List Nat) :=
  writeStreamFuel (input.length + 1) input []

/-- Modelled from the claim: the bytes a server that stored `chunks` replays
on `RECV` — each chunk as a `DATA` frame, terminated by a `DONE` header. -/
def serverReplay (chunks : List (List Nat)) : List Nat :=
  (chunks.map (fun c => dataTag ++ le32 c.length ++ c)).flatten ++ doneTag ++ le32 0

/-- Push through `SendStream`, store the emitted `DATA` payloads, replay
them on `RECV`, and pull through `WriteStream`: the destination bytes. -/
def pushPull (results : List (List Nat × ReadErr)) : Option (List Nat) :=
  writeStream (serverReplay (sendStream results).1)

theorem serverReplay_cons (c : List Nat) (cs : List (List Nat)) :
    serverReplay (c :: cs) = dataTag ++ le32 c.length ++ (c ++ serverReplay cs) := by
  simp [serverReplay, List.append_assoc]

theorem serverReplay_length (chunks : List (List Nat)) :
    chunks.length ≤ (serverReplay chunks).length := by
  induction chunks with
  | nil => simp [serverReplay]
  | cons c cs ih =>
    rw [serverReplay_cons]
    simp only [List.length_append, List.length_cons]
    simp [dataTag, le32] at *
    omega

theorem writeStreamFuel_replay (chunks : List (List Nat)) :
    ∀ (acc : List Nat) (fuel : Nat),
      (∀ c ∈ chunks, c.length < 4294967296) →
      chunks.length < fuel →
      writeStreamFuel fuel (serverReplay chunks) acc = some (acc ++ chunks.flatten) := by
  induction chunks with
  | nil =>
    intro acc fuel _ hf
    cases fuel with
    | zero => omega
    | succ f =>
      have hsr : serverReplay ([] : List (List Nat)) = doneTag ++ le32 0 := by
        simp [serverReplay]
      have h4 : readN 4 (doneTag ++ le32 0) = some (doneTag, le32 0) :=
        readN_exact 4 doneTag (le32 0) rfl
      have hu : readUint32 (le32 0) = some (0, []) :=
        readUint32_le32 0 [] (by omega)
      rw [hsr]
      simp only [writeStreamFuel, h4, hu]
      simp [show ¬ doneTag = failTag by decide]
  | cons c cs ih =>
    intro acc fuel hc hf
    cases fuel with
    | zero => omega
    | succ f =>
      have hclen : c.length < 4294967296 := hc c (by simp)
      have h4 : readN 4 (dataTag ++ (le32 c.length ++ (c ++ serverReplay cs)))
          = some (dataTag, le32 c.length ++ (c ++ serverReplay cs)) :=
        readN_exact 4 dataTag _ rfl
      have hu : readUint32 (le32 c.length ++ (c ++ serverReplay cs))
          = some (c.length, c ++ serverReplay cs) :=
        readUint32_le32 c.length _ hclen
      have hrd : readN c.length (c ++ serverReplay cs) = some (c, serverReplay cs) :=
        readN_exact c.length c _ rfl
      rw [serverReplay_cons, List.append_assoc]
      simp only [writeStreamFuel, h4, hu, hrd]
      have hrec := ih (acc ++ c) f (fun x hx => hc x (by simp [hx])) (by simpa using hf)
      simp [hrec, show ¬ dataTag = failTag by decide, show ¬ dataTag = doneTag by decide]

/-! ## Claim C2 -/

/-- C2 counterexample: a source reader may deliver all of `B` and report
`io.EOF` in the same `Read` call (the `io.Reader` contract allows `n > 0`
with `err == io.EOF`).  `SendStream` returns before looking at those bytes,
so no `DATA` frame is emitted and the subsequent pull yields the empty
byte sequence instead of `B = "hello"`. -/
theorem push_pull_cex :
    (([([104, 101, 108, 108, 111], ReadErr.eof)].map Prod.fst).flatten
        = [104, 101, 108, 108, 111]) ∧
    pushPull [([104, 101, 108, 108, 111], ReadErr.eof)] = some [] ∧
    ([] : List Nat) ≠ [104, 101, 108, 108, 111] := by
  refine ⟨by decide, ?_, by decide⟩
  decide

/-- C2 amended: for any byte sequence `B` with `|B| ≤ 10 MiB` delivered by a
reader through error-free reads of at most one buffer each, followed by a
zero-byte `io.EOF`, pushing and then pulling against the claim's server
yields exactly `B`. -/
theorem push_pull_roundtrip (reads : List (List Nat))
    (hlen : ∀ c ∈ reads, c.length ≤ syncMaxChunkSize)
    (hsize : reads.flatten.length ≤ 10 * 1024 * 1024) :
    pushPull (reads.map (fun c => (c, ReadErr.noErr)) ++ [([], ReadErr.eof)])
      = some reads.flatten := by
  have hchunks : (sendStream (reads.map (fun c => (c, ReadErr.noErr))
      ++ [([], ReadErr.eof)])).1 = reads := by
    induction reads with
    | nil => simp [sendStream]
    | cons c cs ih =>
      have hc : c.length ≤ syncMaxChunkSize := hlen c (by simp)
      have hs : cs.flatten.length ≤ 10 * 1024 * 1024 := by
        simp only [List.flatten_cons, List.length_append] at hsize
        omega
      simp only [List.map_cons, List.cons_append, sendStream, List.append_eq]
      rw [ih (fun x hx => hlen x (by simp [hx])) hs]
      simp [List.take_of_length_le hc]
  rw [pushPull, hchunks, writeStream]
  exact writeStreamFuel_replay reads []
    ((serverReplay reads).length + 1)
    (fun c hc => by
      have := hlen c hc
      simp [syncMaxChunkSize] at this
      omega)
    (by have := serverReplay_length reads; omega)

/-- Witness for C2 at `B = "hi"` delivered in one read then a clean EOF. -/
theorem push_pull_roundtrip_witness :
    pushPull ([[104, 105]].map (fun c => (c, ReadErr.noErr)) ++ [([], ReadErr.eof)])
      = some (List.flatten [[104, 105]]) :=
  push_pull_roundtrip [[104, 105]] (by decide) (by decide)

/-! ## `ReadDirectoryEntry` (LIST decoding) -/

/-- The fields of `fileInfo` as filled in by `ReadDirectoryEntry`: `mode`,
`size`, the unix seconds behind `modTime`, and the raw name bytes. -/
structure DirEntry where
  mode : Nat
  size : Nat
  modTimeUnix : Nat
  name : List Nat
deriving DecidableEq

/-- `syncTransport.ReadDirectoryEntry`: read a 4-byte status; `DONE` ends
the listing (zero entry, `false`).  Any other status is decoded as an
entry: `mode`, `size`, mtime and name length as little-endian `uint32`s,
then the name bytes.  `none` is a read error.  Returns the entry, the
more-entries flag and the remaining stream. -/
def readDirectoryEntry (input : List Nat) : Option (DirEntry × Bool × List Nat) :=
  match readN 4 input with
  | none => none
  | some (status, r1) =>
    if status = doneTag then some (⟨0, 0, 0, []⟩, false, r1)
    else
      match readUint32 r1 with
      | none => none
      | some (mode, r2) =>
        match readUint32 r2 with
        | none => none
        | some (size, r3) =>
          match readUint32 r3 with
          | none => none
          | some (mtime, r4) =>
            match readUint32 r4 with
            | none => none
            | some (flen, r5) =>
              match readN flen r5 with
              | none => none
              | some (name, r6) => some (⟨mode, size, mtime, name⟩, true, r6)

/-! ## Claim C7 -/

/-- C7 counterexample: a SYNC frame whose tag `"XXXX"` is neither `DENT` nor
`DONE` does not make the listing fail — `ReadDirectoryEntry` decodes it as
a directory entry and reports more entries to come. -/
theorem read_dir_entry_unknown_tag_cex :
    ([88, 88, 88, 88] ≠ dentTag ∧ [88, 88, 88, 88] ≠ doneTag) ∧
    readDirectoryEntry
        ([88, 88, 88, 88] ++ le32 33188 ++ le32 5 ++ le32 7 ++ le32 1 ++ [97])
      = some (⟨33188, 5, 7, [97]⟩, true, []) := by
  exact ⟨by decide, by decide⟩

/-- C7 amended: a `DONE` tag terminates the entry sequence without error,
and every other 4-byte tag — `DENT` or not — is decoded as a directory
entry with the more-entries flag set. -/
theorem read_dir_entry_behaviour :
    (∀ rest : List Nat,
      readDirectoryEntry (doneTag ++ rest) = some (⟨0, 0, 0, []⟩, false, rest)) ∧
    (∀ (tag : List Nat) (mode size mtime : Nat) (name rest : List Nat),
      tag.length = 4 → tag ≠ doneTag →
      mode < 4294967296 → size < 4294967296 → mtime < 4294967296 →
      name.length < 4294967296 →
      readDirectoryEntry
          (tag ++ le32 mode ++ le32 size ++ le32 mtime ++ le32 name.length ++ name ++ rest)
        = some (⟨mode, size, mtime, name⟩, true, rest)) := by
  constructor
  · intro rest
    simp [readDirectoryEntry, readN_exact 4 doneTag rest rfl]
  · intro tag mode size mtime name rest h4 hne hm hs ht hn
    have e1 : tag ++ le32 mode ++ le32 size ++ le32 mtime ++ le32 name.length ++ name ++ rest
        = tag ++ (le32 mode ++ (le32 size ++ (le32 mtime ++ (le32 name.length
            ++ (name ++ rest))))) := by
      simp [List.append_assoc]
    rw [e1]
    simp only [readDirectoryEntry, readN_exact 4 tag _ h4,
      readUint32_le32 mode _ hm, readUint32_le32 size _ hs,
      readUint32_le32 mtime _ ht, readUint32_le32 name.length _ hn,
      readN_exact name.length name rest rfl]
    simp [hne]

/-- Witness for C7: a `DONE` header ends the listing, and a `DENT` frame for
a mode-five-byte file named "a" decodes as an entry. -/
theorem read_dir_entry_behaviour_witness :
    readDirectoryEntry (doneTag ++ [1, 2]) = some (⟨0, 0, 0, []⟩, false, [1, 2]) ∧
    readDirectoryEntry
        (dentTag ++ le32 33188 ++ le32 5 ++ le32 7 ++ le32 (List.length [97]) ++ [97] ++ [])
      = some (⟨33188, 5, 7, [97]⟩, true, []) :=
  ⟨read_dir_entry_behaviour.1 [1, 2],
   read_dir_entry_behaviour.2 dentTag 33188 5 7 [97] [] (by decide) (by decide)
     (by decide) (by decide) (by decide) (by decide)⟩

/-! ## `VerifyResponse` (framed status handling) -/

/-- The failure modes of the framed transport read path: a read error /
early connection end, a `strconv.ParseInt` failure on the 4-char hex
length, the Go panic of `make([]byte, 0, size)` for a negative parsed
size, and the `command failed: <msg>` error. -/
inductive VerifyErr
  | connEnd
  | badHex
  | negSize
  | commandFailed (msg : List Nat)
deriving DecidableEq

/-- The numeric value of one hexadecimal digit byte, either case. -/
def hexVal (b : Nat) : Option Nat :=
  if 48 ≤ b ∧ b ≤ 57 then some (b - 48)
  else if 97 ≤ b ∧ b ≤ 102 then some (b - 87)
  else if 65 ≤ b ∧ b ≤ 70 then some (b - 55)
  else none

/-- Accumulate hexadecimal digits left to right. -/
def parseHexDigits : List Nat → Nat → Option Nat
  | [], acc => some acc
  | b :: rest, acc =>
    match hexVal b with
    | none => none
    | some d => parseHexDigits rest (acc * 16 + d)

/-- A non-empty all-hex digit string. -/
def parseHexNat (l : List Nat) : Option Nat :=
  if l.isEmpty then none else parseHexDigits l 0

/-- Go `strconv.ParseInt(s, 16, 64)` on the transport's 4-byte length
strings: an optional sign then at least one hex digit of either case.
The 64-bit range check can never fire on a 4-digit string, so it is
omitted. -/
def parseHexInt (l : List Nat) : Option Int :=
  match l with
  | [] => none
  | b :: rest =>
    if b = 43 then (parseHexNat rest).map (fun n => (n : Int))
    else if b = 45 then (parseHexNat rest).map (fun n => -(n : Int))
    else (parseHexNat (b :: rest)).map (fun n => (n : Int))

/-- `transport.UnpackBytes`: read a 4-char hex length, parse it, then read
that many bytes. -/
def unpackBytes (input : List Nat) : Except VerifyErr (List Nat × List Nat) :=
  match readN 4 input with
  | none => .error .connEnd
  | some (lenStr, r1) =>
    match parseHexInt lenStr with
    | none => .error .badHex
    | some size =>
      if size < 0 then .error .negSize
      else
        match readN size.toNat r1 with
        | none => .error .connEnd
        | some (msg, r2) => .ok (msg, r2)

/-- `transport.VerifyResponse`: read the 4-byte status; `OKAY` succeeds,
and any other status — `FAIL` or not — reads a length-prefixed message and
fails with the `command failed` error carrying it. -/
def verifyResponse (input : List Nat) : Except VerifyErr (List Nat) :=
  match readN 4 input with
  | none => .error .connEnd
  | some (status, r1) =>
    if status = okayTag then .ok r1
    else
      match unpackBytes r1 with
      | .error e => .error e
      | .ok (msg, _) => .error (.commandFailed msg)

/-! ## Claim C6 -/

/-- C6 counterexample: after a status `"WXYZ"` — neither `OKAY` nor `FAIL`
— `VerifyResponse` does not fail with a distinct protocol-error kind: it
reads the length-prefixed message and returns the same command-failed
error it produces for `FAIL`. -/
theorem verify_response_unknown_status_cex :
    ([87, 88, 89, 90] ≠ okayTag ∧ [87, 88, 89, 90] ≠ failTag) ∧
    verifyResponse ([87, 88, 89, 90] ++ [48, 48, 48, 51] ++ [97, 98, 99])
      = .error (.commandFailed [97, 98, 99]) ∧
    verifyResponse (failTag ++ [48, 48, 48, 51] ++ [97, 98, 99])
      = .error (.commandFailed [97, 98, 99]) := by
  exact ⟨by decide, rfl, rfl⟩

theorem hexVal_hexChar (d : Nat) (h : d < 16) : hexVal (hexChar d) = some d := by
  unfold hexChar hexVal
  by_cases h10 : d < 10
  · simp [h10]
    omega
  · have : ¬ (48 ≤ 87 + d ∧ 87 + d ≤ 57) := by omega
    simp [h10, this]
    omega

theorem parseHexDigits_hex4 (n : Nat) (h : n ≤ 0xFFFF) :
    parseHexDigits (hex4 n) 0 = some n := by
  have h3 : n / 4096 % 16 < 16 := Nat.mod_lt _ (by omega)
  have h2 : n / 256 % 16 < 16 := Nat.mod_lt _ (by omega)
  have h1 : n / 16 % 16 < 16 := Nat.mod_lt _ (by omega)
  have h0 : n % 16 < 16 := Nat.mod_lt _ (by omega)
  simp only [hex4, parseHexDigits, hexVal_hexChar _ h3, hexVal_hexChar _ h2,
    hexVal_hexChar _ h1, hexVal_hexChar _ h0]
  congr 1
  omega

theorem hexChar_not_sign (d : Nat) : hexChar d ≠ 43 ∧ hexChar d ≠ 45 := by
  unfold hexChar
  by_cases h : d < 10 <;> simp [h] <;> omega

theorem parseHexInt_hex4 (n : Nat) (h : n ≤ 0xFFFF) :
    parseHexInt (hex4 n) = some (n : Int) := by
  have hd := hexChar_not_sign (n / 4096 % 16)
  have hph : parseHexDigits (hex4 n) 0 = some n := parseHexDigits_hex4 n h
  simp only [hex4] at hph ⊢
  simp only [parseHexInt, if_neg hd.1, if_neg hd.2]
  simp [parseHexNat, hph]

/-- C6 amended: every 4-byte status other than `OKAY` — `FAIL` and unknown
statuses alike — makes `VerifyResponse` read the length-prefixed message
and fail with the command-failed error carrying it; there is no distinct
protocol-error outcome. -/
theorem verify_response_nonokay (status msg rest : List Nat)
    (h4 : status.length = 4) (hne : status ≠ okayTag)
    (hm : msg.length ≤ 0xFFFF) :
    verifyResponse (status ++ (hex4 msg.length ++ (msg ++ rest)))
      = .error (.commandFailed msg) := by
  have hx4 : (hex4 msg.length).length = 4 := by simp [hex4]
  simp only [verifyResponse, readN_exact 4 status _ h4, if_neg hne]
  simp only [unpackBytes, readN_exact 4 (hex4 msg.length) _ hx4,
    parseHexInt_hex4 msg.length hm]
  have hneg : ¬ ((msg.length : Nat) : Int) < 0 := by simp
  rw [if_neg hneg]
  have ht : (((msg.length : Nat) : Int)).toNat = msg.length := by simp
  rw [ht, readN_exact msg.length msg rest rfl]

/-- Witness for C6 at the status `FAIL` with message "no". -/
theorem verify_response_nonokay_witness :
    verifyResponse (failTag ++ (hex4 (List.length [110, 111]) ++ ([110, 111] ++ [])))
      = .error (.commandFailed [110, 111]) :=
  verify_response_nonokay failTag [110, 111] [] (by decide) (by decide) (by decide)

/-! ## Remote file metadata (`file.go`) -/

/-- `dirBit = 1 << 14`. -/
def dirBit : Nat := 1 <<< 14

/-- `fileInfo`: name, mode (`os.FileMode`, a `uint32`), size and the unix
seconds behind `modTime`. -/
structure FileInfoGo where
  name : List Char
  mode : Nat
  size : Nat
  modTimeUnix : Nat

/-- `fileInfo.IsDir`: `f.mode & dirBit != 0`. -/
def FileInfoGo.IsDir (f : FileInfoGo) : Bool := f.mode &&& dirBit != 0

/-! ## Claim C9 -/

/-- C9: an entry is a directory iff bit 14 of its mode is set; mode
`0o040000` is a directory and mode `0o100644` is not. -/
theorem fileinfo_isdir_bit :
    (∀ m : Nat, (FileInfoGo.mk [] m 0 0).IsDir = true ↔ m &&& (1 <<< 14) ≠ 0) ∧
    (FileInfoGo.mk [] 0o040000 0 0).IsDir = true ∧
    (FileInfoGo.mk [] 0o100644 0 0).IsDir = false := by
  refine ⟨fun m => ?_, by decide, by decide⟩
  simp [FileInfoGo.IsDir, dirBit, bne_iff_ne]

/-- Witness for C9 at mode `1 <<< 14` itself. -/
theorem fileinfo_isdir_bit_witness :
    (FileInfoGo.mk [] 16384 0 0).IsDir = true :=
  (fileinfo_isdir_bit.1 16384).mpr (by decide)

/-! ## Go string helpers used by `Client.List` (`file.go`) -/

/-- Go `unicode.IsSpace` restricted to the ASCII range the claims use. -/
def goIsSpace (c : Char) : Bool :=
  c == ' ' || c == '\t' || c == '\n' || c == '\x0b' || c == '\x0c' || c == '\r'

/-- Split at every element satisfying `p`, keeping empty pieces, as Go
`strings.Split` / `strings.FieldsFunc` machinery does. -/
def goSplitP (p : Char → Bool) : List Char → List (List Char)
  | [] => [[]]
  | c :: rest =>
    let r := goSplitP p rest
    if p c then [] :: r
    else (c :: r.headD []) :: r.tail

/-- Go `strings.Split(s, sep)` for a single-character separator. -/
def goSplit (sep : Char) (s : List Char) : List (List Char) :=
  goSplitP (fun c => c == sep) s

/-- Go `strings.Fields`: maximal non-empty runs between whitespace. -/
def goFields (s : List Char) : List (List Char) :=
  (goSplitP goIsSpace s).filter (fun f => !f.isEmpty)

/-- Go `strings.TrimSpace` (ASCII range). -/
def trimSpaceCh (s : List Char) : List Char :=
  ((s.dropWhile goIsSpace).reverse.dropWhile goIsSpace).reverse

theorem goSplit_no_sep (sep : Char) (k : List Char) (h : sep ∉ k) :
    goSplit sep k = [k] := by
  induction k with
  | nil => rfl
  | cons c cs ih =>
    have hc : (c == sep) = false := by
      simp only [List.mem_cons] at h
      simp [beq_eq_false_iff_ne]
      intro hh
      exact h (Or.inl hh.symm)
    have hrec := ih (fun hm => h (List.mem_cons_of_mem c hm))
    simp [goSplit, goSplitP, hc] at hrec ⊢
    simp [hrec]

theorem goSplit_sep_append (sep : Char) (k rest : List Char) (h : sep ∉ k) :
    goSplit sep (k ++ sep :: rest) = k :: goSplit sep rest := by
  induction k with
  | nil => simp [goSplit, goSplitP]
  | cons c cs ih =>
    have hc : (c == sep) = false := by
      simp only [List.mem_cons] at h
      simp [beq_eq_false_iff_ne]
      intro hh
      exact h (Or.inl hh.symm)
    have hrec := ih (fun hm => h (List.mem_cons_of_mem c hm))
    simp only [goSplit] at hrec ⊢
    simp [goSplitP, hc, hrec]

/-! ## `Client.List` (`file.go`) -/

/-- Go map assignment `m[k] = v`, on an insertion-ordered association
list. -/
def mapUpsert (m : List (List Char × List Char)) (k v : List Char) :
    List (List Char × List Char) :=
  if m.any (fun p => p.1 == k) then
    m.map (fun p => if p.1 == k then (k, v) else p)
  else m ++ [(k, v)]

/-- Go map read `m[k]`. -/
def mapGet (m : List (List Char × List Char)) (k : List Char) :
    Option (List Char) :=
  (m.find? (fun p => p.1 == k)).map Prod.snd

/-- One `key:value` attribute field: `split := strings.Split(field, ":")`
then `key, val := split[0], split[1]`.  `none` is the Go index-out-of-range
panic when the field contains no colon (`split` has length 1). -/
def parseAttrField (field : List Char) : Option (List Char × List Char) :=
  match goSplit ':' field with
  | k :: v :: _ => some (k, v)
  | _ => none

/-- The attribute loop of `Client.List` over `fields[2:]`. -/
def parseAttrs : List (List Char) → List (List Char × List Char) →
    Option (List (List Char × List Char))
  | [], m => some m
  | f :: fs, m =>
    match parseAttrField f with
    | none => none
    | some (k, v) => parseAttrs fs (mapUpsert m k v)

/-- A parsed device: serial plus attribute map. -/
structure GoDevice where
  serial : List Char
  attrs : List (List Char × List Char)
deriving DecidableEq

/-- The line loop of `Client.List`: trim, skip blanks, require at least five
whitespace-separated fields with a non-empty first one (else accumulate a
warning — the Go code renders it as `invalid line: %q`, modelled by the
offending line), parse `fields[2:]` as attributes.  `none` is a runtime
panic. -/
def clientListLines : List (List Char) → Option (List GoDevice × List (List Char))
  | [] => some ([], [])
  | l :: ls =>
    let line := trimSpaceCh l
    if line.isEmpty then clientListLines ls
    else
      let fields := goFields line
      if fields.length < 5 ∨ (fields.headD []).length = 0 then
        (clientListLines ls).map (fun r => (r.1, line :: r.2))
      else
        match parseAttrs (fields.drop 2) [] with
        | none => none
        | some attrs =>
          (clientListLines ls).map (fun r => (⟨fields.headD [], attrs⟩ :: r.1, r.2))

/-- `Client.List` on the decoded payload of `host:devices-l`: split on
newlines and run the line loop.  The result pairs the devices with the
accumulated warnings (the Go code wraps a non-empty warning list as the
`ErrWarnings` error value returned alongside the devices). -/
def clientList (payload : List Char) : Option (List GoDevice × List (List Char)) :=
  clientListLines (goSplit '\n' payload)

/-! ## Claim C4 -/

/-- C4 (code bug): a well-formed-looking line whose third field has no colon
makes `Client.List` panic with an index-out-of-range (modelled `none`)
instead of accumulating a warning, while a short line is accumulated as a
warning as claimed. -/
theorem client_list_panics_on_colonless_field :
    clientList ("s1 device a b c".toList) = none ∧
    clientList ("bad".toList) = some ([], ["bad".toList]) := by
  exact ⟨rfl, rfl⟩

/-! ## Claim C5 -/

/-- C5 counterexample: for the field `k:v1:v2` the parsed attribute value is
`v1` — the segment between the first and second colon — not `v1:v2` as the
claim states. -/
theorem client_list_colon_value_cex :
    (clientList ("s1 device k:v1:v2 m:x u:y".toList)).map
        (fun r => r.1.map (fun d => mapGet d.attrs ("k".toList)))
      = some [some ("v1".toList)] ∧
    ("v1".toList : List Char) ≠ ("v1:v2".toList : List Char) := by
  exact ⟨rfl, by decide⟩

/-- C5 amended: an attribute field is split at every colon and the value is
`split[1]`, the segment between the first and the second colon (the whole
remainder when there is exactly one colon); anything after a second colon
is dropped. -/
theorem parse_attr_field_second_segment (k v1 v2 : List Char)
    (hk : ':' ∉ k) (hv : ':' ∉ v1) :
    parseAttrField (k ++ (':' :: (v1 ++ (':' :: v2)))) = some (k, v1) ∧
    parseAttrField (k ++ (':' :: v1)) = some (k, v1) := by
  constructor
  · rw [parseAttrField, goSplit_sep_append ':' k _ hk, goSplit_sep_append ':' v1 v2 hv]
  · rw [parseAttrField, goSplit_sep_append ':' k v1 hk, goSplit_no_sep ':' v1 hv]

/-- Witness for C5 at the field `k:v:w`. -/
theorem parse_attr_field_second_segment_witness :
    parseAttrField (['k'] ++ (':' :: (['v'] ++ (':' :: ['w'])))) = some (['k'], ['v']) :=
  (parse_attr_field_second_segment ['k'] ['v'] ['w'] (by decide) (by decide)).1

/-! ## `RunShellCommand` (`device.go` and the `error.go` draft) -/

/-- The failure modes of the shell-command path. -/
inductive ShellErr
  | emptyCommand
  | transport (e : VerifyErr)
deriving DecidableEq

/-- Go `strings.Join(elems, sep)`. -/
def goJoin (sep : List Char) : List (List Char) → List Char
  | [] => []
  | [s] => s
  | s :: rest => s ++ sep ++ goJoin sep rest

/-- The `error.go` draft of `Device.RunShellCommand`, whose body is
`return d.RunShellCommand(cmd, args...)`: it calls itself with unchanged
arguments.  `fuel` bounds the recursion depth; `some` would be a returned
result, and no amount of fuel produces one. -/
def runShellCommandDraft : Nat → List Char → List (List Char) → Option (List Char)
  | 0, _, _ => none
  | fuel + 1, cmd, args => runShellCommandDraft fuel cmd args

theorem runShellCommandDraft_none (fuel : Nat) (cmd : List Char)
    (args : List (List Char)) : runShellCommandDraft fuel cmd args = none := by
  induction fuel with
  | zero => rfl
  | succ f ih => exact ih

/-- The `device.go` `Device.RunShellCommandStreaming` reached through
`RunShellCommand`: join the command and arguments (the `%s %s` format
always inserts one space), reject a blank command, then `executeCommand`:
open a device transport (send `host:transport:<serial>` and verify the
response), send `shell:<joined>`, verify, and read the remaining stream to
EOF.  Outbound commands are tracked before framing (framing is
`transportSend`).  Returns the commands sent and the collected bytes. -/
def runShellCommand (serial cmd : List Char) (args : List (List Char))
    (inbound : List Nat) : List (List Char) × Except ShellErr (List Nat) :=
  let joined := cmd ++ [' '] ++ goJoin [' '] args
  if (trimSpaceCh joined).isEmpty then ([], .error .emptyCommand)
  else
    match verifyResponse inbound with
    | .error e => (["host:transport:".toList ++ serial], .error (.transport e))
    | .ok r1 =>
      match verifyResponse r1 with
      | .error e => (["host:transport:".toList ++ serial, "shell:".toList ++ joined],
          .error (.transport e))
      | .ok r2 => (["host:transport:".toList ++ serial, "shell:".toList ++ joined],
          .ok r2)

/-! ## Claim C8 -/

/-- C8 (code bug): on the non-blank command "ls" the `error.go` draft of
`RunShellCommand` never returns no matter how deep the self-call is
allowed to recurse, while the `device.go` variant terminates: it sends
`shell:ls ` (the joined form) over the device-scoped transport and returns
the bytes remaining after the two `OKAY` responses. -/
theorem run_shell_command_drafts :
    runShellCommandDraft 1000000 "ls".toList [] = none ∧
    runShellCommand "abcdef".toList "ls".toList [] (okayTag ++ (okayTag ++ [104, 105]))
      = (["host:transport:abcdef".toList, "shell:ls ".toList], .ok [104, 105]) := by
  refine ⟨runShellCommandDraft_none 1000000 "ls".toList [], ?_⟩
  rfl

end Gadb
